import Mathlib

/-!
Verification of the ymbot heartbeat orchestration subsystem.

The definitions below are a shallow embedding of the TypeScript sources:
`src/heartbeat/scheduler.ts` (class HeartbeatScheduler), `src/heartbeat/executor.ts`
(executeHeartbeat, extractFinalResponse, loadHeartbeatPrompt) and
`src/heartbeat/types.ts` (AgentState, HeartbeatResult).  Wall-clock instants are
integers (milliseconds); the reasoning engine, the clock and the notifier are
external collaborators, modelled as explicit inputs (a message stream, completion
timestamps, a send outcome).
-/

namespace YMBot

/-! ### JS string primitives used by the sources -/

/-- JS `String.prototype.trim` whitespace class (the characters that occur in
this code base's strings). -/
def isJsWhitespace (c : Char) : Bool :=
  c = ' ' || c = '\t' || c = '\n' || c = '\r'

/-- `trim()` on a character list: drop whitespace from both ends. -/
def jsTrimList (l : List Char) : List Char :=
  ((l.dropWhile isJsWhitespace).reverse.dropWhile isJsWhitespace).reverse

/-- `trim()` on a string. -/
def jsTrim (s : String) : String :=
  ⟨jsTrimList s.data⟩

/-- JS `String.prototype.indexOf`: index of the first occurrence of `needle`,
`none` for `-1`. -/
def indexOfSub (needle : List Char) : List Char → Option Nat
  | [] => if needle.isPrefixOf ([] : List Char) then some 0 else none
  | c :: t =>
      if needle.isPrefixOf (c :: t) then some 0
      else (indexOfSub needle t).map (· + 1)

/-- JS `String.prototype.includes` (substring containment, i.e. `indexOf`
succeeds). -/
def includes (hay needle : String) : Bool :=
  (indexOfSub needle.data hay.data).isSome

/-! ### Executor embedding (`src/heartbeat/executor.ts`) -/

/-- The sentinel token of the acknowledgment protocol. -/
def heartbeatOk : String := "HEARTBEAT_OK"

/-- The structural marker splitting reasoning narration from the user-facing
payload. -/
def responseMarker : String := "## Response"

/-- `extractFinalResponse`: everything after the first `## Response` marker,
trimmed; the whole output trimmed when the marker is absent. -/
def extractFinalResponse (output : String) : String :=
  match indexOfSub responseMarker.data output.data with
  | none => jsTrim output
  | some markerIndex =>
      ⟨jsTrimList (output.data.drop (markerIndex + responseMarker.data.length))⟩

/-- One content block of an assistant message from the engine stream. -/
inductive ContentBlock where
  | text (s : String)
  | toolUse (name : String)
  deriving DecidableEq, Repr

/-- Payload of one streamed engine message (`msg.type` discrimination). -/
inductive MsgPayload where
  | assistant (content : List ContentBlock)
  | result (res : Option String)
  | other
  deriving DecidableEq, Repr

/-- One streamed engine message; `session_id` is `none` when the field is
absent. -/
structure StreamMessage where
  payload : MsgPayload
  session_id : Option String := none
  deriving DecidableEq, Repr

/-- The executor's mutable loop state (`shouldNotify`, `output`, `sessionId`). -/
structure ExecState where
  shouldNotify : Bool
  output : String
  sessionId : Option String
  deriving DecidableEq, Repr

/-- Processing of one content block of an assistant message. -/
def processBlock (st : ExecState) : ContentBlock → ExecState
  | ContentBlock.text s =>
      { st with
          output := st.output ++ s,
          shouldNotify := if includes s heartbeatOk then false else true }
  | ContentBlock.toolUse _ => st

/-- Processing of one message payload. -/
def processPayload (st : ExecState) : MsgPayload → ExecState
  | MsgPayload.assistant blocks => blocks.foldl processBlock st
  | MsgPayload.result res =>
      let resultText := res.getD ""
      let finalResponse := extractFinalResponse resultText
      let st1 := { st with output := finalResponse }
      if includes finalResponse heartbeatOk then
        { st1 with shouldNotify := false }
      else st1
  | MsgPayload.other => st

/-- `if (msg.session_id && msg.session_id !== sessionId)` update. -/
def updateSession (st : ExecState) : Option String → ExecState
  | none => st
  | some s =>
      if s ≠ "" ∧ some s ≠ st.sessionId then { st with sessionId := some s }
      else st

/-- Processing of one streamed message. -/
def processMessage (st : ExecState) (m : StreamMessage) : ExecState :=
  updateSession (processPayload st m.payload) m.session_id

/-- The executor's `for await` loop over the stream. -/
def processMessages (init : ExecState) (ms : List StreamMessage) : ExecState :=
  ms.foldl processMessage init

/-- `HeartbeatResult` exactly as declared in `src/heartbeat/types.ts`:
success flag, notify flag, output text, optional error.  Errors are carried as
their message strings. -/
structure HeartbeatResult where
  success : Bool
  shouldNotify : Bool
  output : String
  error : Option String := none
  deriving DecidableEq, Repr

/-! ### Configuration and agent state (`src/config`, `src/heartbeat/types.ts`) -/

/-- `ActiveHours`: start/end wall-clock times in `"HH:MM"` format. -/
structure ActiveHours where
  start : String
  end_ : String
  deriving DecidableEq, Repr

/-- `AgentConfig`. -/
structure AgentConfig where
  agentId : String
  workspace : String
  heartbeatInterval : Int
  activeHours : Option ActiveHours := none
  deriving DecidableEq, Repr

/-- `AgentState`. -/
structure AgentState where
  agentId : String
  config : AgentConfig
  nextDueMs : Int
  intervalMs : Int
  sessionId : Option String := none
  deriving DecidableEq, Repr

/-- Behaviour of one engine invocation as observed by the executor: either a
complete message stream, or an exception thrown mid-stream after some consumed
messages. -/
inductive EngineRun where
  | ok (msgs : List StreamMessage)
  | throws (consumed : List StreamMessage) (err : String)
  deriving DecidableEq, Repr

/-- `executeHeartbeat` (executor).  Returns the (possibly mutated) agent state
together with the `HeartbeatResult`.  On an engine exception the loop is
abandoned: the local state is discarded, the agent is left untouched (the
`agent.sessionId` assignment sits after the loop inside the `try`), and the
normalized failure result is returned from the `catch`. -/
def runExecutor (agent : AgentState) (run : EngineRun) : AgentState × HeartbeatResult :=
  match run with
  | EngineRun.ok msgs =>
      let st := processMessages ⟨false, "", agent.sessionId⟩ msgs
      ({ agent with sessionId := st.sessionId },
       { success := true, shouldNotify := st.shouldNotify, output := st.output,
         error := none })
  | EngineRun.throws _ err =>
      (agent,
       { success := false, shouldNotify := false, output := "", error := some err })

/-- The default prompt used when `HEARTBEAT.md` is absent. -/
def defaultHeartbeatPrompt : String :=
  "注意が必要な通知や更新がないか確認してください。問題がなければ HEARTBEAT_OK と返答してください。"

/-- `loadHeartbeatPrompt`: the checklist file's content when readable, the
default prompt otherwise (the read failure is caught). -/
def loadHeartbeatPrompt (fileContent : Option String) : String :=
  match fileContent with
  | some content =>
      "HEARTBEAT.md を読み込んでリストされているチェックを実行:\n\n" ++ content
  | none => defaultHeartbeatPrompt

/-! ### Active-hours gate (`isWithinActiveHours`) -/

/-- `String.prototype.split(sep)` with a one-character separator. -/
def splitOnChar (sep : Char) : List Char → List (List Char)
  | [] => [[]]
  | c :: t =>
      if c = sep then [] :: splitOnChar sep t
      else
        match splitOnChar sep t with
        | [] => [[c]]
        | h :: r => (c :: h) :: r

/-- Parse a non-empty all-digit character list as a decimal number,
`none` otherwise. -/
def parseDigits (l : List Char) : Option Nat :=
  if l = [] then none
  else if l.all Char.isDigit then
    some (l.foldl (fun n c => n * 10 + (c.toNat - 48)) 0)
  else none

/-- JS `Number(str)` on the fragment this code base exercises: whitespace is
trimmed, the empty string is `0`, a decimal digit string is its value, anything
else is `NaN` (modelled as `none`). -/
def jsNumber (l : List Char) : Option Int :=
  let t := jsTrimList l
  if t = [] then some 0
  else
    match parseDigits t with
    | some n => some (n : Int)
    | none => none

/-- `"HH:MM"` string to minutes since midnight: `split(':')`, destructure hour
and minute, `hour * 60 + minute`.  A missing minute component or a non-numeric
part yields `NaN` (`none`), which makes every comparison false. -/
def parseTimeMinutes (s : String) : Option Int :=
  match (splitOnChar ':' s.data).map jsNumber with
  | h :: m :: _ =>
      match h, m with
      | some hv, some mv => some (hv * 60 + mv)
      | _, _ => none
  | _ => none

/-- `isWithinActiveHours`: true when no window is configured, otherwise
`start ≤ currentTime ≤ end` in minutes since local midnight (comparisons with
`NaN` are false). -/
def isWithinActiveHours (currentTime : Int) (config : AgentConfig) : Bool :=
  match config.activeHours with
  | none => true
  | some w =>
      match parseTimeMinutes w.start, parseTimeMinutes w.end_ with
      | some startTime, some endTime =>
          startTime ≤ currentTime && currentTime ≤ endTime
      | _, _ => false

/-! ### Scheduler embedding (`src/heartbeat/scheduler.ts`) -/

/-- Observable actions performed inside one `executeDueHeartbeats` cycle. -/
inductive SchedEvent where
  | engineInvoked (agentId : String)
  | skippedOutsideActiveHours (agentId : String)
  | notificationSent (agentId : String) (text : String) (sessionId : Option String)
  | notificationFailed (agentId : String) (err : String)
  | heartbeatFailed (agentId : String) (err : String)
  | unexpectedError (agentId : String) (err : String)
  deriving DecidableEq, Repr

/-- The external world as seen by one agent's iteration of the loop: the
outcome of the awaited `executeHeartbeat` call (`Except.error` models the call
itself throwing, caught by the outer `catch`), the value `Date.now()` returns
when `nextDueMs` is updated, and the outcome of `notifier.send`
(`Except.error` models `send` throwing, caught by the inner `catch`). -/
structure AgentEnv where
  hbCall : Except String EngineRun
  completionMs : Int
  sendOutcome : Except String Unit
  deriving Repr

/-- One agent's iteration of the `executeDueHeartbeats` loop: due check,
active-hours gate, executor call, notification dispatch, and the advance of
`nextDueMs` to `Date.now() + intervalMs` on every attempted path. -/
def agentStep (now currentTime : Int) (a : AgentState) (env : AgentEnv) :
    AgentState × List SchedEvent :=
  if now < a.nextDueMs then
    (a, [])
  else if isWithinActiveHours currentTime a.config = false then
    ({ a with nextDueMs := env.completionMs + a.intervalMs },
     [SchedEvent.skippedOutsideActiveHours a.agentId])
  else
    match env.hbCall with
    | Except.error e =>
        ({ a with nextDueMs := env.completionMs + a.intervalMs },
         [SchedEvent.engineInvoked a.agentId,
          SchedEvent.unexpectedError a.agentId e])
    | Except.ok run =>
        let er := runExecutor a run
        let a1 := er.fst
        let result := er.snd
        let tailEvents :=
          if result.success then
            if result.shouldNotify ∧ result.output ≠ "" then
              match env.sendOutcome with
              | Except.ok _ =>
                  [SchedEvent.notificationSent a1.agentId result.output a1.sessionId]
              | Except.error e =>
                  [SchedEvent.notificationFailed a1.agentId e]
            else []
          else [SchedEvent.heartbeatFailed a1.agentId (result.error.getD "")]
        ({ a1 with nextDueMs := env.completionMs + a1.intervalMs },
         SchedEvent.engineInvoked a.agentId :: tailEvents)

/-- `executeDueHeartbeats`: the sequential loop over all agents (paired with
their environments), collecting updated states and emitted events. -/
def executeDueHeartbeats (now currentTime : Int) :
    List (AgentState × AgentEnv) → List AgentState × List SchedEvent
  | [] => ([], [])
  | p :: rest =>
      let step := agentStep now currentTime p.fst p.snd
      let restRun := executeDueHeartbeats now currentTime rest
      (step.fst :: restRun.fst, step.snd ++ restRun.snd)

/-- The accumulator step of `scheduleNext`'s minimum search (strict comparison,
first minimum wins, starting from `+∞` modelled as `none`). -/
def minStep (acc : Option Int) (a : AgentState) : Option Int :=
  match acc with
  | none => some a.nextDueMs
  | some m => if a.nextDueMs < m then some a.nextDueMs else some m

/-- The minimum of `nextDueMs` over all agents, `none` when there are none. -/
def minNextDue (agents : List AgentState) : Option Int :=
  agents.foldl minStep none

/-- The scheduler's mutable fields: the agent map (as a list in insertion
order), the pending one-shot timer (its delay in ms), and the running flag. -/
structure SchedulerState where
  agents : List AgentState
  timer : Option Int := none
  running : Bool := false
  deriving DecidableEq, Repr

/-- `scheduleNext`: a no-op when not running; otherwise find the earliest due
agent and arm one one-shot timer for `max(0, nextDueMs − Date.now())`; when no
agents exist, only warn. -/
def scheduleNext (s : SchedulerState) (now : Int) : SchedulerState :=
  if s.running then
    match minNextDue s.agents with
    | none => s
    | some m => { s with timer := some (max 0 (m - now)) }
  else s

/-- `stop()`: a no-op when not running; otherwise clear the running flag and
cancel the pending timer. -/
def stop (s : SchedulerState) : SchedulerState :=
  if s.running then { s with running := false, timer := none }
  else s

/-- The body of the armed timer's callback: consume the timer, run
`executeDueHeartbeats`, then re-arm via `scheduleNext` at the then-current
time. -/
def onTimerFire (s : SchedulerState) (now currentTime afterNow : Int)
    (envs : List AgentEnv) : SchedulerState × List SchedEvent :=
  let run := executeDueHeartbeats now currentTime (s.agents.zip envs)
  (scheduleNext { s with agents := run.fst, timer := none } afterNow, run.snd)

/-! ### Event-loop traces (for the `stop` quiescence property) -/

/-- Scheduler plus the callback phase: `inflight = true` between the start of a
fired callback's `executeDueHeartbeats` and its trailing `scheduleNext`. -/
structure SysState where
  sched : SchedulerState
  inflight : Bool
  deriving Repr

/-- Possible evolutions of the event loop, recording the emitted events: a
pending timer may fire (running the due heartbeats), an in-flight callback may
complete (running the trailing `scheduleNext`), and `stop()` may be called at
any point. -/
inductive SchedTrace : SysState → List SchedEvent → SysState → Prop where
  | refl (s : SysState) : SchedTrace s [] s
  | fire (s : SysState) (d now currentTime : Int) (envs : List AgentEnv)
      (tail : List SchedEvent) (s₂ : SysState)
      (ht : s.sched.timer = some d) (hin : s.inflight = false)
      (htr : SchedTrace
        ⟨{ s.sched with
             agents := (executeDueHeartbeats now currentTime (s.sched.agents.zip envs)).fst,
             timer := none }, true⟩ tail s₂) :
      SchedTrace s
        ((executeDueHeartbeats now currentTime (s.sched.agents.zip envs)).snd ++ tail) s₂
  | complete (s : SysState) (now : Int) (tail : List SchedEvent) (s₂ : SysState)
      (hin : s.inflight = true)
      (htr : SchedTrace ⟨scheduleNext s.sched now, false⟩ tail s₂) :
      SchedTrace s tail s₂
  | stopCall (s : SysState) (tail : List SchedEvent) (s₂ : SysState)
      (htr : SchedTrace ⟨stop s.sched, s.inflight⟩ tail s₂) :
      SchedTrace s tail s₂

/-! ### Reference definitions for refinement and characterization -/

/-- Modelled from the spec: the reference acknowledgment-suppression rule of
§4.2 step 5 — the notify decision as a function of the classified output and
the configured character threshold.  Exact sentinel match suppresses; a
strictly-prefix or strictly-suffix sentinel suppresses when the remaining
trimmed text is at most the threshold; anything else notifies. -/
def specNotifyRule (threshold : Nat) (out : String) : Bool :=
  if out = heartbeatOk then false
  else if heartbeatOk.data.isPrefixOf out.data then
    decide ((jsTrimList (out.data.drop heartbeatOk.data.length)).length > threshold)
  else if heartbeatOk.data.isSuffixOf out.data then
    decide ((jsTrimList (out.data.take (out.data.length - heartbeatOk.data.length))).length > threshold)
  else true

/-- The last non-empty `session_id` of a stream, falling back to an initial
value: a direct characterization of the executor's session-tracking fold. -/
def lastSession (init : Option String) (msgs : List StreamMessage) : Option String :=
  msgs.foldl
    (fun acc m =>
      match m.session_id with
      | some s => if s ≠ "" then some s else acc
      | none => acc) init

/-! ### Helper lemmas -/

lemma updateSession_shouldNotify (st : ExecState) (sid : Option String) :
    (updateSession st sid).shouldNotify = st.shouldNotify := by
  cases sid with
  | none => rfl
  | some s =>
      simp only [updateSession]
      split <;> rfl

lemma updateSession_output (st : ExecState) (sid : Option String) :
    (updateSession st sid).output = st.output := by
  cases sid with
  | none => rfl
  | some s =>
      simp only [updateSession]
      split <;> rfl

lemma updateSession_sessionId (st : ExecState) (sid : Option String) :
    (updateSession st sid).sessionId =
      match sid with
      | some s => if s ≠ "" then some s else st.sessionId
      | none => st.sessionId := by
  cases sid with
  | none => rfl
  | some s =>
      simp only [updateSession]
      by_cases hs : s = ""
      · simp [hs]
      · by_cases he : some s = st.sessionId
        · have hc : ¬(s ≠ "" ∧ some s ≠ st.sessionId) := by simp [he]
          rw [if_neg hc, if_pos hs]
          exact he.symm
        · rw [if_pos (⟨hs, he⟩ : s ≠ "" ∧ some s ≠ st.sessionId), if_pos hs]

lemma processBlock_sessionId (st : ExecState) (b : ContentBlock) :
    (processBlock st b).sessionId = st.sessionId := by
  cases b <;> rfl

lemma foldl_processBlock_sessionId (blocks : List ContentBlock) :
    ∀ st : ExecState, (blocks.foldl processBlock st).sessionId = st.sessionId := by
  induction blocks with
  | nil => intro st; rfl
  | cons b bs ih =>
      intro st
      rw [List.foldl_cons, ih, processBlock_sessionId]

lemma processPayload_sessionId (st : ExecState) (p : MsgPayload) :
    (processPayload st p).sessionId = st.sessionId := by
  cases p with
  | assistant blocks => exact foldl_processBlock_sessionId blocks st
  | result res =>
      simp only [processPayload]
      split <;> rfl
  | other => rfl

lemma processMessage_sessionId (st : ExecState) (m : StreamMessage) :
    (processMessage st m).sessionId =
      match m.session_id with
      | some s => if s ≠ "" then some s else st.sessionId
      | none => st.sessionId := by
  rw [processMessage, updateSession_sessionId, processPayload_sessionId]

/-- The executor's session tracking computes exactly the last non-empty
`session_id` of the stream. -/
lemma processMessages_sessionId (msgs : List StreamMessage) :
    ∀ st : ExecState, (processMessages st msgs).sessionId = lastSession st.sessionId msgs := by
  induction msgs with
  | nil => intro st; rfl
  | cons m ms ih =>
      intro st
      show (processMessages (processMessage st m) ms).sessionId = _
      rw [ih]
      show _ = lastSession _ (m :: ms)
      unfold lastSession
      rw [List.foldl_cons]
      rw [processMessage_sessionId]

lemma processPayload_result (st : ExecState) (r : String) :
    processPayload st (MsgPayload.result (some r)) =
      { st with
          output := extractFinalResponse r,
          shouldNotify :=
            if includes (extractFinalResponse r) heartbeatOk then false
            else st.shouldNotify } := by
  simp only [processPayload, Option.getD]
  split
  · rfl
  · rfl

lemma processMessages_append_single (init : ExecState) (pre : List StreamMessage)
    (m : StreamMessage) :
    processMessages init (pre ++ [m]) = processMessage (processMessages init pre) m := by
  unfold processMessages
  rw [List.foldl_append, List.foldl_cons, List.foldl_nil]

/-- The executor leaves every agent field but `sessionId` unchanged. -/
lemma runExecutor_fst_frame (a : AgentState) (r : EngineRun) :
    (runExecutor a r).fst.agentId = a.agentId ∧
    (runExecutor a r).fst.config = a.config ∧
    (runExecutor a r).fst.nextDueMs = a.nextDueMs ∧
    (runExecutor a r).fst.intervalMs = a.intervalMs := by
  cases r <;> simp [runExecutor]

/-- Invariants of the `scheduleNext` minimum fold, generalized over the
accumulator. -/
lemma foldl_minStep_spec (l : List AgentState) :
    ∀ (acc : Option Int) (m : Int), l.foldl minStep acc = some m →
      (∀ a ∈ l, m ≤ a.nextDueMs) ∧
      (∀ k, acc = some k → m ≤ k) ∧
      (acc = some m ∨ ∃ a ∈ l, a.nextDueMs = m) := by
  induction l with
  | nil =>
      intro acc m h
      simp only [List.foldl_nil] at h
      refine ⟨by simp, ?_, Or.inl h⟩
      intro k hk
      rw [h] at hk
      exact le_of_eq (Option.some.inj hk)
  | cons a l ih =>
      intro acc m h
      rw [List.foldl_cons] at h
      obtain ⟨h1, h2, h3⟩ := ih (minStep acc a) m h
      have hma : m ≤ a.nextDueMs := by
        cases acc with
        | none => exact h2 a.nextDueMs rfl
        | some m0 =>
            by_cases hlt : a.nextDueMs < m0
            · exact h2 a.nextDueMs (by simp [minStep, if_pos hlt])
            · have := h2 m0 (by simp [minStep, if_neg hlt])
              exact le_trans this (not_lt.mp hlt)
      refine ⟨?_, ?_, ?_⟩
      · intro b hb
        rcases List.mem_cons.mp hb with hba | hbl
        · rw [hba]; exact hma
        · exact h1 b hbl
      · intro k hk
        cases acc with
        | none => cases hk
        | some m0 =>
            have hk' : m0 = k := Option.some.inj hk
            rw [← hk']
            by_cases hlt : a.nextDueMs < m0
            · have := h2 a.nextDueMs (by simp [minStep, if_pos hlt])
              exact le_trans this (le_of_lt hlt)
            · exact h2 m0 (by simp [minStep, if_neg hlt])
      · rcases h3 with h3 | ⟨b, hb, hbm⟩
        · cases acc with
          | none =>
              right
              exact ⟨a, List.mem_cons_self a l, Option.some.inj h3⟩
          | some m0 =>
              simp only [minStep] at h3
              by_cases hlt : a.nextDueMs < m0
              · rw [if_pos hlt] at h3
                right
                exact ⟨a, List.mem_cons_self a l, Option.some.inj h3⟩
              · rw [if_neg hlt] at h3
                exact Or.inl h3
        · exact Or.inr ⟨b, List.mem_cons_of_mem a hb, hbm⟩

/-- For a non-empty agent list the minimum search always produces a value. -/
lemma foldl_minStep_isSome (l : List AgentState) :
    ∀ k : Int, ∃ m, l.foldl minStep (some k) = some m := by
  induction l with
  | nil => intro k; exact ⟨k, rfl⟩
  | cons a l ih =>
      intro k
      rw [List.foldl_cons]
      simp only [minStep]
      by_cases hlt : a.nextDueMs < k
      · rw [if_pos hlt]; exact ih a.nextDueMs
      · rw [if_neg hlt]; exact ih k

lemma minNextDue_isSome (agents : List AgentState) (h : agents ≠ []) :
    ∃ m, minNextDue agents = some m := by
  cases agents with
  | nil => exact absurd rfl h
  | cons a l =>
      unfold minNextDue
      rw [List.foldl_cons]
      exact foldl_minStep_isSome l a.nextDueMs

/-- `minNextDue` returns the least `nextDueMs`, attained by some agent. -/
lemma minNextDue_spec (agents : List AgentState) (m : Int)
    (h : minNextDue agents = some m) :
    (∀ a ∈ agents, m ≤ a.nextDueMs) ∧ (∃ a ∈ agents, a.nextDueMs = m) := by
  obtain ⟨h1, _, h3⟩ := foldl_minStep_spec agents none m h
  refine ⟨h1, ?_⟩
  rcases h3 with h3 | h3
  · cases h3
  · exact h3

/-- The states produced by `executeDueHeartbeats` are the per-agent steps, in
order; no agent is ever skipped by an earlier agent's outcome. -/
lemma executeDueHeartbeats_fst (now currentTime : Int)
    (pairs : List (AgentState × AgentEnv)) :
    (executeDueHeartbeats now currentTime pairs).fst =
      pairs.map (fun p => (agentStep now currentTime p.fst p.snd).fst) := by
  induction pairs with
  | nil => rfl
  | cons p rest ih =>
      show ((agentStep now currentTime p.fst p.snd).fst :: _, _).fst = _
      simp only [List.map_cons]
      rw [← ih]

/-- The events of `executeDueHeartbeats` are the concatenation of the
per-agent events, in order. -/
lemma executeDueHeartbeats_snd (now currentTime : Int)
    (pairs : List (AgentState × AgentEnv)) :
    (executeDueHeartbeats now currentTime pairs).snd =
      (pairs.map (fun p => (agentStep now currentTime p.fst p.snd).snd)).flatten := by
  induction pairs with
  | nil => rfl
  | cons p rest ih =>
      show (_, (agentStep now currentTime p.fst p.snd).snd ++ _).snd = _
      simp only [List.map_cons, List.flatten_cons]
      rw [← ih]

/-- An agent due at loop entry has its `nextDueMs` set to the completion-time
`Date.now()` plus its interval, on every path (skip, success, failure, catch). -/
lemma agentStep_nextDue (now currentTime : Int) (a : AgentState) (env : AgentEnv)
    (hdue : a.nextDueMs ≤ now) :
    (agentStep now currentTime a env).fst.nextDueMs = env.completionMs + a.intervalMs := by
  unfold agentStep
  rw [if_neg (not_lt.mpr hdue)]
  by_cases hgate : isWithinActiveHours currentTime a.config = false
  · rw [if_pos hgate]
  · rw [if_neg hgate]
    cases henv : env.hbCall with
    | error e => rfl
    | ok run =>
        simp only
        rw [(runExecutor_fst_frame a run).2.2.2]

/-- The interval and identity of an agent survive one step. -/
lemma agentStep_frame (now currentTime : Int) (a : AgentState) (env : AgentEnv) :
    (agentStep now currentTime a env).fst.intervalMs = a.intervalMs ∧
    (agentStep now currentTime a env).fst.agentId = a.agentId ∧
    (agentStep now currentTime a env).fst.config = a.config := by
  unfold agentStep
  split
  · exact ⟨rfl, rfl, rfl⟩
  · split
    · exact ⟨rfl, rfl, rfl⟩
    · cases henv : env.hbCall with
      | error e => exact ⟨rfl, rfl, rfl⟩
      | ok run =>
          simp only
          obtain ⟨hid, hcfg, _, hint⟩ := runExecutor_fst_frame a run
          exact ⟨hint, hid, hcfg⟩

/-- The agent-state outcome of one step does not depend on the notifier's send
outcome (only the emitted event does). -/
lemma agentStep_fst_sendOutcome (now currentTime : Int) (a : AgentState)
    (env : AgentEnv) (o : Except String Unit) :
    (agentStep now currentTime a { env with sendOutcome := o }).fst =
      (agentStep now currentTime a env).fst := by
  unfold agentStep
  split
  · rfl
  · split
    · rfl
    · cases henv : env.hbCall with
      | error e => rfl
      | ok run => rfl

lemma scheduleNext_not_running (s : SchedulerState) (now : Int)
    (h : s.running = false) : scheduleNext s now = s := by
  unfold scheduleNext
  rw [h]
  rfl

lemma stop_not_running (s : SchedulerState) (h : s.running = false) :
    stop s = s := by
  unfold stop
  rw [h]
  rfl

lemma stop_running (s : SchedulerState) (h : s.running = true) :
    stop s = { s with running := false, timer := none } := by
  unfold stop
  rw [h]
  rfl

/-- A stopped scheduler with no pending timer emits no further events: the
only event-producing step requires an armed timer, and neither the trailing
`scheduleNext` of an in-flight callback nor another `stop()` can arm one. -/
lemma schedTrace_quiescent (s : SysState) (evs : List SchedEvent) (s₂ : SysState)
    (tr : SchedTrace s evs s₂) :
    s.sched.running = false → s.sched.timer = none → evs = [] := by
  induction tr with
  | refl s => intro _ _; rfl
  | fire s d now currentTime envs tail s₂ ht hin htr ih =>
      intro _ htimer
      rw [htimer] at ht
      cases ht
  | complete s now tail s₂ hin htr ih =>
      intro hr htimer
      apply ih <;> rw [scheduleNext_not_running s.sched now hr]
      · exact hr
      · exact htimer
  | stopCall s tail s₂ htr ih =>
      intro hr htimer
      apply ih <;> rw [stop_not_running s.sched hr]
      · exact hr
      · exact htimer

lemma string_empty_append (s : String) : "" ++ s = s := by
  cases s with
  | mk data =>
      show String.mk ([] ++ data) = String.mk data
      rw [List.nil_append]

lemma string_append_empty (s : String) : s ++ "" = s := by
  cases s with
  | mk data =>
      show String.mk (data ++ []) = String.mk data
      rw [List.append_nil]

lemma string_append_assoc (a b c : String) : a ++ b ++ c = a ++ (b ++ c) := by
  cases a with
  | mk da =>
      cases b with
      | mk db =>
          cases c with
          | mk dc =>
              show String.mk (da ++ db ++ dc) = String.mk (da ++ (db ++ dc))
              rw [List.append_assoc]

/-- Concatenation of a list of strings. -/
def concatAll (l : List String) : String :=
  l.foldr (· ++ ·) ""

/-- Correctness of the `indexOf` model: a returned index is the first position
at which the needle occurs. -/
lemma indexOfSub_some_spec (needle : List Char) :
    ∀ (hay : List Char) (i : Nat), indexOfSub needle hay = some i →
      needle.isPrefixOf (hay.drop i) = true ∧
      ∀ j, j < i → needle.isPrefixOf (hay.drop j) = false := by
  intro hay
  induction hay with
  | nil =>
      intro i h
      unfold indexOfSub at h
      by_cases hp : needle.isPrefixOf ([] : List Char) = true
      · rw [if_pos hp] at h
        have hi : 0 = i := Option.some.inj h
        refine ⟨?_, ?_⟩
        · rw [← hi]; simpa using hp
        · intro j hj; omega
      · rw [if_neg hp] at h
        cases h
  | cons c t ih =>
      intro i h
      unfold indexOfSub at h
      by_cases hp : needle.isPrefixOf (c :: t) = true
      · rw [if_pos hp] at h
        have hi : 0 = i := Option.some.inj h
        refine ⟨?_, ?_⟩
        · rw [← hi]; simpa using hp
        · intro j hj; omega
      · rw [if_neg hp] at h
        cases hmt : indexOfSub needle t with
        | none => rw [hmt] at h; cases h
        | some i0 =>
            rw [hmt] at h
            have hi : i0 + 1 = i := Option.some.inj h
            obtain ⟨ih1, ih2⟩ := ih i0 hmt
            refine ⟨?_, ?_⟩
            · rw [← hi]
              simpa using ih1
            · intro j hj
              rw [← hi] at hj
              cases j with
              | zero =>
                  simpa using Bool.eq_false_iff.mpr hp
              | succ j0 =>
                  have hj0 : j0 < i0 := by omega
                  simpa using ih2 j0 hj0

/-- An `includes`-negative haystack has no occurrence index. -/
lemma indexOfSub_of_not_includes (hay needle : String)
    (h : includes hay needle = false) : indexOfSub needle.data hay.data = none := by
  unfold includes at h
  cases hidx : indexOfSub needle.data hay.data with
  | none => rfl
  | some i => rw [hidx] at h; cases h

/-- Accumulation of assistant text blocks: the output grows by exact
concatenation, with no trimming. -/
lemma processMessages_assistant_texts (texts : List String) :
    ∀ st : ExecState,
      (processMessages st
        (texts.map fun t => ⟨MsgPayload.assistant [ContentBlock.text t], none⟩)).output
        = st.output ++ concatAll texts := by
  induction texts with
  | nil =>
      intro st
      show st.output = st.output ++ ""
      rw [string_append_empty]
  | cons t ts ih =>
      intro st
      show (processMessages (processMessage st ⟨MsgPayload.assistant [ContentBlock.text t], none⟩)
              (ts.map fun u => ⟨MsgPayload.assistant [ContentBlock.text u], none⟩)).output = _
      rw [ih]
      show (processBlock st (ContentBlock.text t)).output ++ concatAll ts = _
      show st.output ++ t ++ concatAll ts = st.output ++ (t ++ concatAll ts)
      rw [string_append_assoc]

/-! ### Claims -/

/-- A sample agent used by concrete witnesses and counterexamples (the shape of
the default configuration). -/
def agent0 : AgentState :=
  { agentId := "gmail-checker",
    config := { agentId := "gmail-checker", workspace := "/w",
                heartbeatInterval := 30000 },
    nextDueMs := 0, intervalMs := 30000 }

/-- C2: for every agent due at loop entry, every kind of attempt — successful
invocation, failed invocation, active-hours skip, or a caught unexpected
exception — sets that agent's `nextDueMs` to the wall-clock time at completion
of the attempt plus exactly `intervalMs`; consequently (completion being no
earlier than loop entry, which is no earlier than the old due time) the new due
time is at least one full interval after the old one and strictly after `now`,
and the loop applies this per-agent update to every agent. -/
theorem heartbeat_attempt_advances_nextDue (now currentTime : Int)
    (a : AgentState) (env : AgentEnv)
    (hdue : a.nextDueMs ≤ now) (hcompl : now ≤ env.completionMs)
    (hpos : 0 < a.intervalMs) :
    (agentStep now currentTime a env).fst.nextDueMs = env.completionMs + a.intervalMs ∧
    a.nextDueMs + a.intervalMs ≤ (agentStep now currentTime a env).fst.nextDueMs ∧
    now < (agentStep now currentTime a env).fst.nextDueMs ∧
    ∀ pairs : List (AgentState × AgentEnv),
      (executeDueHeartbeats now currentTime pairs).fst =
        pairs.map fun p => (agentStep now currentTime p.fst p.snd).fst := by
  have h := agentStep_nextDue now currentTime a env hdue
  refine ⟨h, ?_, ?_, executeDueHeartbeats_fst now currentTime⟩
  · rw [h]; omega
  · rw [h]; omega

/-- C2 witness: a concrete due agent with a slow invocation. -/
theorem heartbeat_attempt_advances_nextDue_witness :
    (agentStep 100 720 { agent0 with nextDueMs := 50 }
        ⟨Except.ok (EngineRun.ok []), 150, Except.ok ()⟩).fst.nextDueMs = 30150 := by
  have h := heartbeat_attempt_advances_nextDue 100 720 { agent0 with nextDueMs := 50 }
    ⟨Except.ok (EngineRun.ok []), 150, Except.ok ()⟩
    (by decide) (by decide) (by decide)
  rw [h.1]
  rfl

/-- C3: on a running scheduler, `scheduleNext` does nothing when no agents
exist; otherwise it arms the single one-shot timer for
`max 0 (minDue − now)` where `minDue` is the least `nextDueMs` over all agents
(attained by one of them), and the resulting firing instant `now + delay` is
never earlier than that earliest due time. -/
theorem scheduleNext_arms_min_timer (s : SchedulerState) (now : Int)
    (hr : s.running = true) :
    (s.agents = [] → scheduleNext s now = s) ∧
    (s.agents ≠ [] →
      ∃ m, minNextDue s.agents = some m ∧
        (scheduleNext s now).timer = some (max 0 (m - now)) ∧
        (∀ a ∈ s.agents, m ≤ a.nextDueMs) ∧
        (∃ a ∈ s.agents, a.nextDueMs = m) ∧
        m ≤ now + max 0 (m - now)) := by
  constructor
  · intro hnil
    unfold scheduleNext
    rw [hr]
    have : minNextDue s.agents = none := by rw [hnil]; rfl
    rw [this]
    rfl
  · intro hne
    obtain ⟨m, hm⟩ := minNextDue_isSome s.agents hne
    obtain ⟨hlb, hatt⟩ := minNextDue_spec s.agents m hm
    refine ⟨m, hm, ?_, hlb, hatt, ?_⟩
    · unfold scheduleNext
      rw [hr, hm]
      rfl
    · have := le_max_right (0 : Int) (m - now)
      omega

/-- C3 witness: two concrete agents; the timer delay tracks the earlier one. -/
theorem scheduleNext_arms_min_timer_witness :
    (scheduleNext
        { agents := [{ agent0 with nextDueMs := 500 }, { agent0 with nextDueMs := 300 }],
          timer := none, running := true } 100).timer = some 200 := by
  have h := scheduleNext_arms_min_timer
    { agents := [{ agent0 with nextDueMs := 500 }, { agent0 with nextDueMs := 300 }],
      timer := none, running := true } 100 rfl
  obtain ⟨m, hm, ht, _, _, _⟩ := h.2 (by decide)
  have hm300 : m = 300 := by
    have : minNextDue [{ agent0 with nextDueMs := 500 }, { agent0 with nextDueMs := 300 }]
        = some 300 := by decide
    rw [this] at hm
    exact (Option.some.inj hm).symm
  rw [ht, hm300]
  rfl

/-- C6: `executeHeartbeat` never propagates an engine-level exception: for any
stream consumed so far and any thrown error it returns the normalized result
with `success = false`, `shouldNotify = false`, empty output and the caught
error, leaving the agent untouched; and a missing `HEARTBEAT.md` yields the
default prompt instead of a failure. -/
theorem executor_catches_engine_errors (a : AgentState)
    (consumed : List StreamMessage) (err : String) :
    runExecutor a (EngineRun.throws consumed err) =
      (a, { success := false, shouldNotify := false, output := "",
            error := some err }) ∧
    loadHeartbeatPrompt none = defaultHeartbeatPrompt :=
  ⟨rfl, rfl⟩

/-- C8: once `stop()` is called on a running scheduler, the running flag is
cleared and the pending timer cancelled; `scheduleNext` becomes a no-op, so
even the completion of an in-flight firing cannot arm a new timer, and every
subsequent evolution of the event loop emits no further events — in particular
no engine invocations and no notifications — no matter how far time advances. -/
theorem stop_halts_scheduler (sch : SchedulerState) (hr : sch.running = true)
    (infl : Bool) (evs : List SchedEvent) (s₂ : SysState)
    (tr : SchedTrace ⟨stop sch, infl⟩ evs s₂) :
    (stop sch).running = false ∧ (stop sch).timer = none ∧
    (∀ now, scheduleNext (stop sch) now = stop sch) ∧
    evs = [] := by
  have h1 : (stop sch).running = false := by rw [stop_running sch hr]
  have h2 : (stop sch).timer = none := by rw [stop_running sch hr]
  exact ⟨h1, h2, fun now => scheduleNext_not_running _ now h1,
    schedTrace_quiescent _ _ _ tr h1 h2⟩

/-- C8 witness: a concrete running scheduler with an armed timer, followed by
an in-flight completion step after `stop`. -/
theorem stop_halts_scheduler_witness :
    (stop { agents := [agent0], timer := some 3000, running := true }).running = false ∧
    (stop { agents := [agent0], timer := some 3000, running := true }).timer = none ∧
    (∀ now, scheduleNext (stop { agents := [agent0], timer := some 3000, running := true }) now
        = stop { agents := [agent0], timer := some 3000, running := true }) ∧
    ([] : List SchedEvent) = [] :=
  stop_halts_scheduler { agents := [agent0], timer := some 3000, running := true } rfl
    true []
    ⟨scheduleNext (stop { agents := [agent0], timer := some 3000, running := true }) 9999, false⟩
    (SchedTrace.complete _ 9999 [] _ rfl (SchedTrace.refl _))

/-- C4: a due agent whose configured window excludes the current local time
(in minutes since midnight) is skipped entirely — its whole iteration is the
single skip event, so the Executor is never called for it — while its
`nextDueMs` still advances by one interval from the completion-time clock; and
an unset window always passes the gate. -/
theorem active_hours_gate_skips (now currentTime : Int) (a : AgentState)
    (env : AgentEnv) (w : ActiveHours) (hw : a.config.activeHours = some w)
    (startTime endTime : Int)
    (hs : parseTimeMinutes w.start = some startTime)
    (he : parseTimeMinutes w.end_ = some endTime)
    (hdue : a.nextDueMs ≤ now)
    (hout : ¬(startTime ≤ currentTime ∧ currentTime ≤ endTime)) :
    agentStep now currentTime a env =
      ({ a with nextDueMs := env.completionMs + a.intervalMs },
       [SchedEvent.skippedOutsideActiveHours a.agentId]) ∧
    (∀ e ∈ (agentStep now currentTime a env).snd,
        ∀ id, e ≠ SchedEvent.engineInvoked id) ∧
    (∀ cfg : AgentConfig, cfg.activeHours = none →
        isWithinActiveHours currentTime cfg = true) := by
  have hgate : isWithinActiveHours currentTime a.config = false := by
    unfold isWithinActiveHours
    rw [hw]
    show (match parseTimeMinutes w.start, parseTimeMinutes w.end_ with
          | some startTime, some endTime =>
              startTime ≤ currentTime && currentTime ≤ endTime
          | _, _ => false) = false
    rw [hs, he]
    show (startTime ≤ currentTime && currentTime ≤ endTime) = false
    by_cases h1 : startTime ≤ currentTime
    · have h2 : ¬ currentTime ≤ endTime := fun h2 => hout ⟨h1, h2⟩
      simp [h2]
    · simp [h1]
  have hstep : agentStep now currentTime a env =
      ({ a with nextDueMs := env.completionMs + a.intervalMs },
       [SchedEvent.skippedOutsideActiveHours a.agentId]) := by
    unfold agentStep
    rw [if_neg (not_lt.mpr hdue), if_pos hgate]
  refine ⟨hstep, ?_, ?_⟩
  · rw [hstep]
    intro e hmem id
    rcases List.mem_singleton.mp hmem with rfl
    intro hcontra
    cases hcontra
  · intro cfg hcfg
    unfold isWithinActiveHours
    rw [hcfg]

/-- C4 witness: a `20:00`–`22:00` window at local noon, matching the repo's
test scenario. -/
theorem active_hours_gate_skips_witness :
    agentStep 100 720
        { agent0 with
            config := { agent0.config with activeHours := some ⟨"20:00", "22:00"⟩ } }
        ⟨Except.ok (EngineRun.ok []), 150, Except.ok ()⟩ =
      ({ agent0 with
            config := { agent0.config with activeHours := some ⟨"20:00", "22:00"⟩ },
            nextDueMs := 30150 },
       [SchedEvent.skippedOutsideActiveHours "gmail-checker"]) := by
  have h := active_hours_gate_skips 100 720
    { agent0 with
        config := { agent0.config with activeHours := some ⟨"20:00", "22:00"⟩ } }
    ⟨Except.ok (EngineRun.ok []), 150, Except.ok ()⟩
    ⟨"20:00", "22:00"⟩ rfl 1200 1320 (by decide) (by decide) (by decide) (by decide)
  rw [h.1]
  rfl

/-- C10: a window whose start is strictly later than its end (crossing
midnight) can never be satisfied: the gate is false at every minute of the
day, so a due agent with such a window is always skipped — the Executor is
never invoked for it — while its `nextDueMs` keeps advancing by one interval
each cycle. -/
theorem midnight_window_never_active (a : AgentState) (w : ActiveHours)
    (hw : a.config.activeHours = some w) (startTime endTime : Int)
    (hs : parseTimeMinutes w.start = some startTime)
    (he : parseTimeMinutes w.end_ = some endTime)
    (hcross : endTime < startTime) :
    (∀ currentTime : Int, isWithinActiveHours currentTime a.config = false) ∧
    (∀ (now currentTime : Int) (env : AgentEnv), a.nextDueMs ≤ now →
        agentStep now currentTime a env =
          ({ a with nextDueMs := env.completionMs + a.intervalMs },
           [SchedEvent.skippedOutsideActiveHours a.agentId])) := by
  have hgate : ∀ currentTime : Int,
      isWithinActiveHours currentTime a.config = false := by
    intro currentTime
    unfold isWithinActiveHours
    rw [hw]
    show (match parseTimeMinutes w.start, parseTimeMinutes w.end_ with
          | some startTime, some endTime =>
              startTime ≤ currentTime && currentTime ≤ endTime
          | _, _ => false) = false
    rw [hs, he]
    show (startTime ≤ currentTime && currentTime ≤ endTime) = false
    by_cases h1 : startTime ≤ currentTime
    · have h2 : ¬ currentTime ≤ endTime := by omega
      simp [h2]
    · simp [h1]
  refine ⟨hgate, ?_⟩
  intro now currentTime env hdue
  unfold agentStep
  rw [if_neg (not_lt.mpr hdue), if_pos (hgate currentTime)]

/-- C10 witness: the `22:00`–`02:00` window from the design notes, evaluated
at local noon and at midnight-adjacent minutes via the proved gate. -/
theorem midnight_window_never_active_witness :
    isWithinActiveHours 720
        { agent0.config with activeHours := some ⟨"22:00", "02:00"⟩ } = false ∧
    isWithinActiveHours 0
        { agent0.config with activeHours := some ⟨"22:00", "02:00"⟩ } = false ∧
    isWithinActiveHours 1439
        { agent0.config with activeHours := some ⟨"22:00", "02:00"⟩ } = false := by
  have h := midnight_window_never_active
    { agent0 with
        config := { agent0.config with activeHours := some ⟨"22:00", "02:00"⟩ } }
    ⟨"22:00", "02:00"⟩ rfl 1320 120 (by decide) (by decide) (by decide)
  exact ⟨h.1 720, h.1 0, h.1 1439⟩

/-- C7: a notifier `send()` that throws while delivering one agent's
notification is absorbed inside that agent's iteration: the loop still
produces every other agent's per-agent step unchanged (the later due agents
are processed and their notifications attempted, their events appearing after
the failure), the failing agent's own state — its advanced `nextDueMs`
included — is exactly what a successful send would have produced, and the
firing still re-arms the timer whenever agents remain on a running scheduler. -/
theorem notifier_failure_isolated (now currentTime : Int)
    (xs ys : List (AgentState × AgentEnv)) (a : AgentState) (env : AgentEnv)
    (e : String) (hsend : env.sendOutcome = Except.error e) :
    (executeDueHeartbeats now currentTime (xs ++ (a, env) :: ys)).fst =
      (executeDueHeartbeats now currentTime xs).fst ++
        (agentStep now currentTime a env).fst ::
          (executeDueHeartbeats now currentTime ys).fst ∧
    (agentStep now currentTime a env).fst =
      (agentStep now currentTime a { env with sendOutcome := Except.ok () }).fst ∧
    (executeDueHeartbeats now currentTime (xs ++ (a, env) :: ys)).snd =
      (executeDueHeartbeats now currentTime xs).snd ++
        ((agentStep now currentTime a env).snd ++
          (executeDueHeartbeats now currentTime ys).snd) ∧
    (∀ (s : SchedulerState) (envs : List AgentEnv) (afterNow : Int),
        s.running = true → s.agents ≠ [] → envs.length = s.agents.length →
        ((onTimerFire s now currentTime afterNow envs).fst.timer).isSome = true) := by
  refine ⟨?_, (agentStep_fst_sendOutcome now currentTime a env (Except.ok ())).symm,
    ?_, ?_⟩
  · rw [executeDueHeartbeats_fst, executeDueHeartbeats_fst, executeDueHeartbeats_fst,
      List.map_append, List.map_cons]
  · rw [executeDueHeartbeats_snd, executeDueHeartbeats_snd, executeDueHeartbeats_snd,
      List.map_append, List.map_cons, List.flatten_append, List.flatten_cons]
  · intro s envs afterNow hrun hne hlen
    have hlen2 :
        ((executeDueHeartbeats now currentTime (s.agents.zip envs)).fst).length
          = s.agents.length := by
      rw [executeDueHeartbeats_fst, List.length_map, List.length_zip, hlen, min_self]
    have hne2 :
        (executeDueHeartbeats now currentTime (s.agents.zip envs)).fst ≠ [] := by
      intro hcontra
      apply hne
      rw [← List.length_eq_zero, ← hlen2, hcontra]
      rfl
    obtain ⟨m, hm⟩ := minNextDue_isSome _ hne2
    unfold onTimerFire
    show (scheduleNext
        { s with
            agents := (executeDueHeartbeats now currentTime (s.agents.zip envs)).fst,
            timer := none } afterNow).timer.isSome = true
    unfold scheduleNext
    rw [show ({ s with
            agents := (executeDueHeartbeats now currentTime (s.agents.zip envs)).fst,
            timer := none } : SchedulerState).running = true from hrun]
    rw [hm]
    rfl

/-- C7 witness: two due agents; the first agent's send throws, the second
agent's notification is still attempted and both advance. -/
theorem notifier_failure_isolated_witness :
    (executeDueHeartbeats 100 720
        ([] ++
          ({ agent0 with nextDueMs := 50 },
            (⟨Except.ok (EngineRun.ok [⟨MsgPayload.result (some "alert one"), none⟩]),
              150, Except.error "send boom"⟩ : AgentEnv)) ::
          [({ agent0 with agentId := "second", nextDueMs := 60 },
            (⟨Except.ok (EngineRun.ok [⟨MsgPayload.result (some "alert two"), none⟩]),
              160, Except.ok ()⟩ : AgentEnv))])).snd =
      [] ++
        ((agentStep 100 720 { agent0 with nextDueMs := 50 }
            ⟨Except.ok (EngineRun.ok [⟨MsgPayload.result (some "alert one"), none⟩]),
              150, Except.error "send boom"⟩).snd ++
          (executeDueHeartbeats 100 720
            [({ agent0 with agentId := "second", nextDueMs := 60 },
              (⟨Except.ok (EngineRun.ok [⟨MsgPayload.result (some "alert two"), none⟩]),
                160, Except.ok ()⟩ : AgentEnv))]).snd) :=
  (notifier_failure_isolated 100 720 []
    [({ agent0 with agentId := "second", nextDueMs := 60 },
      (⟨Except.ok (EngineRun.ok [⟨MsgPayload.result (some "alert two"), none⟩]),
        160, Except.ok ()⟩ : AgentEnv))]
    { agent0 with nextDueMs := 50 }
    ⟨Except.ok (EngineRun.ok [⟨MsgPayload.result (some "alert one"), none⟩]),
      150, Except.error "send boom"⟩
    "send boom" rfl).2.2.1

/-- C1 counterexample: for the classified output
`"Problem A HEARTBEAT_OK Problem B"` — sentinel strictly in the interior —
the spec's reference rule notifies, but `executeHeartbeat` computes
`shouldNotify = false` because its check is plain substring containment. -/
theorem ack_classification_counterexample :
    (runExecutor agent0 (EngineRun.ok
        [⟨MsgPayload.assistant [ContentBlock.text "checking"], none⟩,
         ⟨MsgPayload.result (some "Problem A HEARTBEAT_OK Problem B"), none⟩])).snd.output
      = "Problem A HEARTBEAT_OK Problem B" ∧
    (runExecutor agent0 (EngineRun.ok
        [⟨MsgPayload.assistant [ContentBlock.text "checking"], none⟩,
         ⟨MsgPayload.result (some "Problem A HEARTBEAT_OK Problem B"), none⟩])).snd.shouldNotify
      = false ∧
    ∀ threshold : Nat,
      specNotifyRule threshold "Problem A HEARTBEAT_OK Problem B" = true := by
  refine ⟨by decide, by decide, ?_⟩
  intro threshold
  unfold specNotifyRule
  rw [if_neg (by decide), if_neg (by decide), if_neg (by decide)]

/-- C1 (amended): the executor has no character threshold and no
prefix/suffix distinction — whenever the terminal result message's classified
output contains the sentinel anywhere (exactly, as prefix, as suffix, or in
the interior, with a remainder of any length), `shouldNotify` is forced to
`false`, the full classified output being kept as the message; when the
sentinel is absent from the classified output, `shouldNotify` keeps the value
accumulated from the assistant text blocks (true exactly when the last text
block lacked the sentinel). -/
theorem ack_classification_amended (a : AgentState) (pre : List StreamMessage)
    (sid : Option String) (r : String) :
    ((runExecutor a (EngineRun.ok
        (pre ++ [⟨MsgPayload.result (some r), sid⟩]))).snd.output
      = extractFinalResponse r) ∧
    (includes (extractFinalResponse r) heartbeatOk = true →
      (runExecutor a (EngineRun.ok
          (pre ++ [⟨MsgPayload.result (some r), sid⟩]))).snd.shouldNotify = false) ∧
    (includes (extractFinalResponse r) heartbeatOk = false →
      (runExecutor a (EngineRun.ok
          (pre ++ [⟨MsgPayload.result (some r), sid⟩]))).snd.shouldNotify
        = (processMessages ⟨false, "", a.sessionId⟩ pre).shouldNotify) := by
  have hout :
      (runExecutor a (EngineRun.ok
          (pre ++ [⟨MsgPayload.result (some r), sid⟩]))).snd
        = { success := true,
            shouldNotify :=
              (processMessages ⟨false, "", a.sessionId⟩
                (pre ++ [⟨MsgPayload.result (some r), sid⟩])).shouldNotify,
            output :=
              (processMessages ⟨false, "", a.sessionId⟩
                (pre ++ [⟨MsgPayload.result (some r), sid⟩])).output,
            error := none } := rfl
  rw [hout]
  rw [processMessages_append_single]
  have hmsg :
      processMessage (processMessages ⟨false, "", a.sessionId⟩ pre)
          ⟨MsgPayload.result (some r), sid⟩
        = updateSession
            (processPayload (processMessages ⟨false, "", a.sessionId⟩ pre)
              (MsgPayload.result (some r))) sid := rfl
  rw [hmsg, processPayload_result]
  refine ⟨?_, ?_, ?_⟩
  · rw [updateSession_output]
  · intro hinc
    rw [updateSession_shouldNotify]
    show (if includes (extractFinalResponse r) heartbeatOk then false else _) = false
    rw [if_pos hinc]
  · intro hinc
    rw [updateSession_shouldNotify]
    show (if includes (extractFinalResponse r) heartbeatOk then false else _) = _
    rw [hinc]
    rfl

/-- C1 (amended) witness: a verbose sentinel-suffix result suppresses the
notification regardless of length, and a sentinel-free result after a
sentinel-free text block notifies. -/
theorem ack_classification_amended_witness :
    HeartbeatResult.shouldNotify
      (runExecutor agent0 (EngineRun.ok
        ([⟨MsgPayload.assistant [ContentBlock.text "working"], none⟩] ++
         [⟨MsgPayload.result
            (some "a very long trailing explanation indeed HEARTBEAT_OK"), none⟩]))).snd
      = false ∧
    HeartbeatResult.shouldNotify
      (runExecutor agent0 (EngineRun.ok
        ([⟨MsgPayload.assistant [ContentBlock.text "urgent news"], none⟩] ++
         [⟨MsgPayload.result (some "please check the calendar"), none⟩]))).snd
      = true := by
  constructor
  · exact (ack_classification_amended agent0
      [⟨MsgPayload.assistant [ContentBlock.text "working"], none⟩] none
      "a very long trailing explanation indeed HEARTBEAT_OK").2.1 (by decide)
  · have h := (ack_classification_amended agent0
      [⟨MsgPayload.assistant [ContentBlock.text "urgent news"], none⟩] none
      "please check the calendar").2.2 (by decide)
    rw [h]
    decide

/-- C5 counterexample: with an accumulated assistant text `" ACC "` and a
marker-free terminal result `"RES"`, the classified output is `"RES"` (the
result text), not the trimmed accumulated text `"ACC"`; and with no terminal
result message at all the classified output `" hi "` is the accumulated text
kept untrimmed, not `"hi"`. -/
theorem final_response_counterexample :
    (runExecutor agent0 (EngineRun.ok
        [⟨MsgPayload.assistant [ContentBlock.text " ACC "], none⟩,
         ⟨MsgPayload.result (some "RES"), none⟩])).snd.output = "RES" ∧
    "RES" ≠ jsTrim " ACC " ∧
    (runExecutor agent0 (EngineRun.ok
        [⟨MsgPayload.assistant [ContentBlock.text " hi "], none⟩])).snd.output
      = " hi " ∧
    " hi " ≠ jsTrim " hi " := by
  refine ⟨by decide, by decide, by decide, by decide⟩

/-- C5 (amended): whenever the engine emits a terminal result message, the
classified output is computed from that message's text alone, discarding the
accumulated assistant text: everything after the first occurrence of
`## Response` trimmed when the marker occurs (the returned index being the
first position where the marker matches), and the whole result text trimmed
when the marker is absent; when no terminal result message is emitted, the
classified output is the accumulated assistant text, concatenated as-is
without trimming. -/
theorem final_response_amended (a : AgentState) (pre : List StreamMessage)
    (sid : Option String) (r : String) :
    ((runExecutor a (EngineRun.ok
        (pre ++ [⟨MsgPayload.result (some r), sid⟩]))).snd.output
      = extractFinalResponse r) ∧
    (includes r responseMarker = false → extractFinalResponse r = jsTrim r) ∧
    (∀ i, indexOfSub responseMarker.data r.data = some i →
        (extractFinalResponse r).data
            = jsTrimList (r.data.drop (i + responseMarker.data.length)) ∧
        responseMarker.data.isPrefixOf (r.data.drop i) = true ∧
        ∀ j, j < i → responseMarker.data.isPrefixOf (r.data.drop j) = false) ∧
    (∀ texts : List String,
        (runExecutor a (EngineRun.ok
            (texts.map fun t =>
              ⟨MsgPayload.assistant [ContentBlock.text t], none⟩))).snd.output
          = concatAll texts) := by
  refine ⟨(ack_classification_amended a pre sid r).1, ?_, ?_, ?_⟩
  · intro hnm
    unfold extractFinalResponse
    rw [indexOfSub_of_not_includes r responseMarker hnm]
  · intro i hi
    obtain ⟨h1, h2⟩ := indexOfSub_some_spec responseMarker.data r.data i hi
    refine ⟨?_, h1, h2⟩
    unfold extractFinalResponse
    rw [hi]
  · intro texts
    show (processMessages ⟨false, "", a.sessionId⟩
        (texts.map fun t => ⟨MsgPayload.assistant [ContentBlock.text t], none⟩)).output
      = concatAll texts
    rw [processMessages_assistant_texts]
    show "" ++ concatAll texts = concatAll texts
    rw [string_empty_append]

/-- C5 (amended) witness: a marker-bearing result is cut after the first
marker occurrence and trimmed; a marker-free result is trimmed whole. -/
theorem final_response_amended_witness :
    HeartbeatResult.output
      (runExecutor agent0 (EngineRun.ok
        ([⟨MsgPayload.assistant [ContentBlock.text "narration"], none⟩] ++
         [⟨MsgPayload.result (some "think think ## Response  pay the bill "), none⟩]))).snd
      = "pay the bill" ∧
    extractFinalResponse "  plain text  " = jsTrim "  plain text  " := by
  constructor
  · have h := (final_response_amended agent0
      [⟨MsgPayload.assistant [ContentBlock.text "narration"], none⟩] none
      "think think ## Response  pay the bill ").1
    rw [h]
    decide
  · exact (final_response_amended agent0 [] none "  plain text  ").2.1 (by decide)

/-- C9 counterexample: for a stream carrying session id `"s1"`, the Executor
itself mutates the agent state it received — the returned agent differs from
the input, its stored session token overwritten — rather than handing the
token back for the Scheduler to install; `HeartbeatResult` (see the amended
theorem) has no session field at all. -/
theorem session_token_counterexample :
    (runExecutor agent0 (EngineRun.ok [⟨MsgPayload.other, some "s1"⟩])).fst.sessionId
      = some "s1" ∧
    agent0.sessionId = none ∧
    (runExecutor agent0 (EngineRun.ok [⟨MsgPayload.other, some "s1"⟩])).fst ≠ agent0 := by
  refine ⟨by decide, by decide, by decide⟩

/-- C9 (amended): the session-token flow is the reverse of the claim — the
Executor itself installs the last non-empty session identifier of the stream
into the agent's stored state before returning; `HeartbeatResult` consists of
exactly the success flag, the notify flag, the output text and the optional
error, with no session-token field; and the Scheduler performs no session
mutation of its own: when it invokes the Executor, the agent's stored token
after the iteration is exactly what the Executor installed, and on skipped or
not-due paths it is untouched. -/
theorem session_token_amended (a : AgentState) (msgs : List StreamMessage)
    (env : AgentEnv) (run : EngineRun) (henv : env.hbCall = Except.ok run) :
    (runExecutor a (EngineRun.ok msgs)).fst
      = { a with sessionId := lastSession a.sessionId msgs } ∧
    (∀ r : HeartbeatResult, r = ⟨r.success, r.shouldNotify, r.output, r.error⟩) ∧
    (∀ now currentTime : Int,
        (agentStep now currentTime a env).fst.sessionId =
          if now < a.nextDueMs ∨ isWithinActiveHours currentTime a.config = false
          then a.sessionId
          else (runExecutor a run).fst.sessionId) := by
  refine ⟨?_, ?_, ?_⟩
  · show ({ a with
        sessionId := (processMessages ⟨false, "", a.sessionId⟩ msgs).sessionId }
          : AgentState) = _
    rw [processMessages_sessionId]
  · intro r
    rfl
  · intro now currentTime
    unfold agentStep
    by_cases hdue : now < a.nextDueMs
    · rw [if_pos hdue, if_pos (Or.inl hdue)]
    · rw [if_neg hdue]
      by_cases hgate : isWithinActiveHours currentTime a.config = false
      · rw [if_pos hgate, if_pos (Or.inr hgate)]
      · rw [if_neg hgate, if_neg (by
          intro hor
          rcases hor with h | h
          · exact hdue h
          · exact hgate h)]
        rw [henv]

/-- C9 (amended) witness: a concrete stream's session id ends up in the agent
state returned by the Executor, and the Scheduler's iteration carries exactly
that token through. -/
theorem session_token_amended_witness :
    (runExecutor agent0 (EngineRun.ok [⟨MsgPayload.other, some "s2"⟩])).fst
      = { agent0 with
          sessionId := lastSession agent0.sessionId [⟨MsgPayload.other, some "s2"⟩] } ∧
    (agentStep 100 720 agent0
        ⟨Except.ok (EngineRun.ok [⟨MsgPayload.other, some "s2"⟩]), 150,
          Except.ok ()⟩).fst.sessionId
      = (runExecutor agent0
          (EngineRun.ok [⟨MsgPayload.other, some "s2"⟩])).fst.sessionId := by
  have h := session_token_amended agent0 [⟨MsgPayload.other, some "s2"⟩]
    ⟨Except.ok (EngineRun.ok [⟨MsgPayload.other, some "s2"⟩]), 150, Except.ok ()⟩
    (EngineRun.ok [⟨MsgPayload.other, some "s2"⟩]) rfl
  refine ⟨h.1, ?_⟩
  have h3 := h.2.2 100 720
  rw [h3, if_neg (by decide)]

end YMBot
